import Mathlib

/-!
Verification of `deluge/core/torrent.py` (the internal `Torrent` class).

Each Python function relevant to the verified properties is shallowly
embedded as an executable Lean definition.  Python machine integers are
modelled as `Int`/`Nat`; Python floats that only carry exact config ratios
are modelled as `ℚ`; Python dicts are modelled as association lists with
string keys (insertion order preserved, unique keys); exceptions are
modelled with explicit error flags or `Option`.

String helpers below re-implement the exact Python string primitives used
by the source (`startswith`, `in` on strings, `str.replace`, `str.split`)
structurally over `List Char`, so that every definition evaluates inside
the kernel.
-/

namespace DelugeTorrent

/-- `leadMatch pre l` is true iff `pre` is a leading segment of `l`
(the list-level core of Python `str.startswith`). -/
def leadMatch : List Char → List Char → Bool
  | [], _ => true
  | _ :: _, [] => false
  | x :: xs, y :: ys => x = y && leadMatch xs ys

/-- Python `s.startswith(pre)`. -/
def pyStartsWith (s pre : String) : Bool :=
  leadMatch pre.toList s.toList

/-- `hasSubAux needle l` is true iff `needle` occurs contiguously in `l`. -/
def hasSubAux (needle : List Char) : List Char → Bool
  | [] => needle.isEmpty
  | x :: xs => leadMatch needle (x :: xs) || hasSubAux needle xs

/-- Python `needle in haystack` for strings (substring containment). -/
def pyInStr (needle haystack : String) : Bool :=
  hasSubAux needle.toList haystack.toList

/-- `splitOnChar c l` splits `l` at every occurrence of `c`
(the list-level core of Python `str.split(c)`). -/
def splitOnChar (c : Char) : List Char → List (List Char)
  | [] => [[]]
  | x :: xs =>
    let r := splitOnChar c xs
    if x = c then [] :: r
    else
      match r with
      | [] => [[x]]
      | h :: t => (x :: h) :: t

/-- Python `s.split(".")`. -/
def splitDot (s : String) : List String :=
  (splitOnChar '.' s.toList).map String.mk

/-- Python `".".join(l)`. -/
def joinDots (l : List String) : String :=
  String.mk (List.intercalate ['.'] (l.map String.toList))

/-- Fuel-bounded core of Python `str.replace` (all occurrences, left to
right, skipping over each replaced occurrence). -/
def replaceAux (pat rep : List Char) : Nat → List Char → List Char
  | _, [] => []
  | 0, l => l
  | fuel + 1, x :: xs =>
    if leadMatch pat (x :: xs) then
      rep ++ replaceAux pat rep fuel (List.drop (pat.length - 1) xs)
    else
      x :: replaceAux pat rep fuel xs

/-- Python `s.replace(pat, rep)` for a non-empty pattern. -/
def pyReplace (s pat rep : String) : String :=
  if pat = "" then s
  else String.mk (replaceAux pat.toList rep.toList s.toList.length s.toList)

/-- Python dict lookup `d[k]` over an association list, `none` = `KeyError`. -/
def dictLookup {V : Type} (d : List (String × V)) (k : String) : Option V :=
  match d with
  | [] => none
  | (k2, v) :: rest => if k2 = k then some v else dictLookup rest k

/-- Python `k in d` for a dict. -/
def dictMem {V : Type} (d : List (String × V)) (k : String) : Bool :=
  (dictLookup d k).isSome

/-- Python dict assignment `d[k] = v`: replace in place when the key
exists, append otherwise (insertion-order semantics). -/
def dictSet {V : Type} (d : List (String × V)) (k : String) (v : V) :
    List (String × V) :=
  if dictMem d k then d.map (fun kv => if kv.1 = k then (k, v) else kv)
  else d ++ [(k, v)]

/-- Python `del d[k]`. -/
def dictDel {V : Type} (d : List (String × V)) (k : String) :
    List (String × V) :=
  d.filter (fun kv => kv.1 ≠ k)

/-! ### `Torrent.set_priority` (torrent.py lines 416-432)

The setter stores the priority in `self.options["priority"]` and pushes it
to `self.handle`, or raises `ValueError` leaving both untouched. -/

/-- The option/handle state touched by `set_priority`. -/
structure PriorityState where
  optPriority : Int
  handlePriority : Int
deriving DecidableEq, Repr

/-- `Torrent.set_priority`: `if 0 <= priority <= 255` store and push,
`else raise ValueError`.  The second component is `some msg` when the
call raised, in which case the returned state is the unchanged input. -/
def set_priority (s : PriorityState) (priority : Int) :
    PriorityState × Option String :=
  if 0 ≤ priority ∧ priority ≤ 255 then
    ({ optPriority := priority, handlePriority := priority }, none)
  else
    (s, some "Torrent priority is invalid, should be [0..255]")

/-! ### `Torrent.get_eta` (torrent.py lines 546-566)

Engine counters are Python ints (`Int` here); `stop_ratio` is a float
config value modelled as `ℚ`.  Python 2 `/` on two ints floors
(`Int.fdiv`); the ratio branch divides by a float, hence exact `ℚ`
division. -/

/-- `Torrent.get_eta`. -/
def get_eta (is_finished stop_at_ratio : Bool) (stop_ratio : ℚ)
    (all_time_download all_time_upload upload_payload_rate : Int)
    (total_wanted total_wanted_done download_payload_rate : Int) : ℚ :=
  if is_finished && stop_at_ratio then
    if upload_payload_rate = 0 then 0
    else ((all_time_download : ℚ) * stop_ratio - (all_time_upload : ℚ)) /
      (upload_payload_rate : ℚ)
  else
    let left := total_wanted - total_wanted_done
    if left ≤ 0 || download_payload_rate = 0 then 0
    else ((Int.fdiv left download_payload_rate : Int) : ℚ)

/-! ### `Torrent.update_state` (torrent.py lines 480-532)

`deluge.common.LT_TORRENT_STATE` (not part of this file) maps the
libtorrent state enum to the names used below; the raw state is modelled
as an inductive over those names. -/

/-- The libtorrent raw torrent states, per `deluge.common.LT_TORRENT_STATE`. -/
inductive LtState
  | Queued
  | Checking
  | DownloadingMetadata
  | Downloading
  | Finished
  | Seeding
  | Allocating
  | CheckingResumeData
deriving DecidableEq, Repr

/-- The display name `LTSTATE[ltstate]` assigned to `self.state` before
any classification logic runs. -/
def ltStateName : LtState → String
  | .Queued => "Queued"
  | .Checking => "Checking"
  | .DownloadingMetadata => "Downloading Metadata"
  | .Downloading => "Downloading"
  | .Finished => "Finished"
  | .Seeding => "Seeding"
  | .Allocating => "Allocating"
  | .CheckingResumeData => "Checking Resume Data"

/-- Outcome of one `update_state` run: the new `self.state`, the new
`self.statusmsg`, and whether `self.handle.auto_managed(False)` was
invoked. -/
structure StateResult where
  state : String
  statusmsg : String
  autoManagedOff : Bool
deriving DecidableEq, Repr

/-- `Torrent.update_state` as a pure function of the engine status
(`ltstate`, `paused`, `auto_managed`, `error`), the global session pause
flag, and the current `self.statusmsg`. -/
def update_state (ltstate : LtState)
    (paused auto_managed session_is_paused : Bool)
    (error statusmsg : String) : StateResult :=
  if 0 < error.length then
    { state := "Error", statusmsg := error, autoManagedOff := paused }
  else if pyStartsWith statusmsg "Error:" then
    { state := "Error", statusmsg := statusmsg, autoManagedOff := paused }
  else
    if ltstate = .Queued ∨ ltstate = .Checking then
      { state := if paused then "Paused" else "Checking"
        statusmsg := "OK", autoManagedOff := false }
    else
      let st1 :=
        if ltstate = .Downloading ∨ ltstate = .DownloadingMetadata then
          "Downloading"
        else if ltstate = .Finished ∨ ltstate = .Seeding then "Seeding"
        else if ltstate = .Allocating then "Allocating"
        else ltStateName ltstate
      let st2 :=
        if ¬session_is_paused ∧ paused ∧ auto_managed then "Queued"
        else if session_is_paused ∨ (paused ∧ ¬auto_managed) then "Paused"
        else st1
      { state := st2, statusmsg := "OK", autoManagedOff := false }

/-! ### `Torrent.get_status` with `diff=True` (torrent.py lines 682-728)

The computed `status_dict` (one entry per requested key, unique keys) is
modelled as an association list; `self.prev_status[session_id]` for the
calling session is `prev : Option _` (`none` = no baseline stored yet).
Values are compared with Python `!=`, modelled by decidable equality. -/

/-- The diff loop of `get_status`: keep an entry of the fresh
`status_dict` when its key is missing from the previous status or its
value differs from the previous value. -/
def status_diff {V : Type} [DecidableEq V]
    (status_dict prev : List (String × V)) : List (String × V) :=
  status_dict.filter (fun kv =>
    match dictLookup prev kv.1 with
    | some v => decide (kv.2 ≠ v)
    | none => true)

/-- `get_status(keys, diff=True)` for one session: returns the pair of
(the dictionary returned to the caller, the new stored baseline
`self.prev_status[session_id]`). -/
def get_status_diff {V : Type} [DecidableEq V]
    (status_dict : List (String × V)) (prev : Option (List (String × V))) :
    List (String × V) × List (String × V) :=
  match prev with
  | some p => (status_diff status_dict p, status_dict)
  | none => (status_dict, status_dict)

/-! ### `Torrent.rename_folder` (torrent.py lines 1005-1044)

`rename_folder` appends a fresh wait dict `wait_on_folder` to
`self.waiting_on_folder_rename`, registers one Deferred per file whose
path starts with `folder`, and hangs `on_folder_rename_complete` on a
twisted `DeferredList` over those Deferreds.  Twisted semantics: each
per-file callback `on_file_rename_complete` pops its index from the wait
dict when its Deferred fires; the `DeferredList` fires exactly once, as
soon as every constituent Deferred has fired — immediately at
construction when the list is empty.  A run is modelled by the list of
file indices whose rename-complete alerts arrive, in arrival order. -/

/-- Indices of the files whose path starts with `folder`
(the loop guard `f["path"].startswith(folder)`). -/
def matchingIndices (files : List (Nat × String)) (folder : String) : List Nat :=
  (files.filter (fun f => pyStartsWith f.2 folder)).map (fun f => f.1)

/-- Process rename-completion alerts in arrival order.  `wg` is the wait
dict (pending file indices), `pending` is the set of constituent
Deferreds of the `DeferredList` that have not fired yet, `fired` records
whether the `DeferredList` has fired (it fires at most once).  Each
completion pops its index from the wait dict, then the `DeferredList`
fires if every constituent has now fired. -/
def processCompletions : List Nat → List Nat → List Nat → Bool →
    List Nat × Bool
  | wg, _, [], fired => (wg, fired)
  | wg, pending, i :: rest, fired =>
    let wg2 := wg.erase i
    let pending2 := pending.erase i
    processCompletions wg2 pending2 rest (fired || pending2.isEmpty)

/-- Outcome of one `rename_folder` call followed by a completion run:
whether a wait dict was appended to `self.waiting_on_folder_rename`, the
final contents of that wait dict, and how many
`TorrentFolderRenamedEvent` notifications were emitted. -/
structure RenameRun where
  waitGroupAppended : Bool
  waitGroupFinal : List Nat
  notifications : Nat
deriving DecidableEq, Repr

/-- `Torrent.rename_folder` followed by the completion alerts listed in
`order`.  An empty `new_folder` is rejected up front (no wait dict, no
event); otherwise the wait dict is appended unconditionally and the
`DeferredList` over its Deferreds drives one notification. -/
def rename_folder (files : List (Nat × String)) (folder new_folder : String)
    (order : List Nat) : RenameRun :=
  if new_folder.length < 1 then
    { waitGroupAppended := false, waitGroupFinal := [], notifications := 0 }
  else
    let wg := matchingIndices files folder
    let res := processCompletions wg wg order wg.isEmpty
    { waitGroupAppended := true, waitGroupFinal := res.1
      notifications := if res.2 then 1 else 0 }

/-! ### `Torrent.set_prioritize_first_last_pieces` (torrent.py lines 303-339)

Files are laid out contiguously, so `ti.map_file(i, off, 0).piece` is the
piece index holding byte `offset_of_file_i + off` for the given piece
length.  `int(0.02 * f.size)` is modelled as `2 * f.size / 100` (exact
instead of float rounding; none of the verified properties depend on the
exact range endpoints).  Piece priorities are the engine's per-piece
priority vector; the result is the vector passed to
`handle.prioritize_pieces` (or the unchanged input when one of the
guards returns early). -/

/-- Per-file metadata from `ti.file_at(i)`. -/
structure FileInfo where
  offset : Nat
  size : Nat
deriving DecidableEq, Repr

/-- Python `p and 7` on a piece priority: `0` is falsy and kept
unchanged, every non-zero priority becomes `7`. -/
def boost (p : Nat) : Nat := if p = 0 then 0 else 7

/-- The slice assignment
`priorities[s:e] = map(lambda p: p and 7, priorities[s:e])`;
`i` is the index of the head of the remaining list. -/
def applyBoost (s e : Nat) : Nat → List Nat → List Nat
  | _, [] => []
  | i, p :: ps =>
    (if s ≤ i ∧ i < e then boost p else p) :: applyBoost s e (i + 1) ps

/-- `ti.map_file(i, off, 0).piece`. -/
def mapFilePiece (piece_length : Nat) (f : FileInfo) (off : Nat) : Nat :=
  (f.offset + off) / piece_length

/-- The two end-exclusive boosted piece ranges of one file:
`(first_start, first_end + 1)` and `(last_start, last_end + 1)`. -/
def fileRanges (piece_length : Nat) (f : FileInfo) : List (Nat × Nat) :=
  let tp := 2 * f.size / 100
  [ (mapFilePiece piece_length f 0, mapFilePiece piece_length f tp + 1),
    (mapFilePiece piece_length f (f.size - tp),
      mapFilePiece piece_length f (f.size - 1) + 1) ]

/-- All boosted ranges, in file order (`prioritized_pieces` in the code). -/
def prioritizedRangesPieces (piece_length : Nat) (files : List FileInfo) :
    List (Nat × Nat) :=
  files.flatMap (fileRanges piece_length)

/-- `Torrent.set_prioritize_first_last_pieces(True)`: a no-op without
metadata or with compact allocation, otherwise every boosted range is
applied to the piece priority vector in order. -/
def set_prioritize_first_last_pieces (has_metadata compact_allocation : Bool)
    (piece_length : Nat) (files : List FileInfo) (priorities : List Nat) :
    List Nat :=
  if has_metadata = false then priorities
  else if compact_allocation then priorities
  else (prioritizedRangesPieces piece_length files).foldl
    (fun pr se => applyBoost se.1 se.2 0 pr) priorities

/-! ### `Torrent._get_pieces_info` (torrent.py lines 1086-1123)

The Python dict `pieces` receives the value 2 for every key written in
the peer loop (every `downloading_piece_index >= 0` of every peer in the
raw `handle.get_peer_info()` list — there is no flags check in this
function), and the second loop fills every index of `status.pieces` not
already present with 3/1/0.  The key set of the dict is therefore
`peerKeys ∪ range(len(bitmap))`, each key's value is `pieceValue`, and
the returned list enumerates the values over `sorted(pieces.keys())`,
modelled as a filter over an ascending range that bounds every key. -/

/-- One entry of `handle.get_peer_info()`, restricted to the fields read
by `_get_pieces_info` and the flags read by `get_peers`. -/
structure PeerInfo where
  connecting : Bool
  handshake : Bool
  downloading_piece_index : Int
deriving DecidableEq, Repr

/-- The dict keys written by the peer loop: `downloading_piece_index` of
every peer for which it is not negative. -/
def peerKeys (peers : List PeerInfo) : List Nat :=
  peers.filterMap (fun p =>
    if p.downloading_piece_index < 0 then none
    else some p.downloading_piece_index.toNat)

/-- The value held by the dict `pieces` at key `idx`. -/
def pieceValue (peers : List PeerInfo) (bitmap : List Bool)
    (avail : List Int) (idx : Nat) : Nat :=
  if idx ∈ peerKeys peers then 2
  else if bitmap.getD idx false then 3
  else if 0 < avail.getD idx 0 then 1
  else 0

/-- `Torrent._get_pieces_info`: `none` without metadata, otherwise the
dict values listed over the sorted key set. -/
def get_pieces_info (has_metadata : Bool) (peers : List PeerInfo)
    (bitmap : List Bool) (avail : List Int) : Option (List Nat) :=
  if has_metadata = false then none
  else
    some (((List.range
        (bitmap.length + (peerKeys peers).foldr Nat.max 0 + 1)).filter
      (fun idx => decide (idx ∈ peerKeys peers ∨ idx < bitmap.length))).map
      (pieceValue peers bitmap avail))

/-! ### `Torrent.get_tracker_host` (torrent.py lines 644-676)

The code rewrites `udp://` to `http://`, extracts
`urlparse(...).hostname`, returns the hostname unmodified when
`socket.inet_aton` accepts it, and otherwise collapses the dot-separated
labels: keep the last 3 labels when `parts[-2]` is one of
co/com/net/org or `parts[-1] in ("uk")` — which in Python is a substring
test of the string `"uk"` — else keep the last 2 labels.  `urlparse`
hostname extraction (Python stdlib) is modelled for
`scheme://host/path`-shaped URLs without userinfo: the text between the
first `"://"` and the next `/`, `:`, `?` or `#`, lowercased.
`socket.inet_aton` (libc) is a parameter `isIP`; `inet_aton_ok` is a
simplified concrete model accepting 1-4 dot-separated decimal parts. -/

/-- Scan for the first occurrence of `pat` and drop everything up to and
including it (empty result when `pat` does not occur). -/
def afterSchemeAux (pat : List Char) : Nat → List Char → List Char
  | _, [] => []
  | 0, _ => []
  | fuel + 1, x :: xs =>
    if leadMatch pat (x :: xs) then List.drop (pat.length - 1) xs
    else afterSchemeAux pat fuel xs

/-- `urlparse(url).hostname` for the URL shapes produced by tracker
lists. -/
def url_hostname (url : String) : String :=
  String.mk (((afterSchemeAux [':', '/', '/'] url.toList.length
    url.toList).takeWhile
      (fun c => decide (c ≠ '/' ∧ c ≠ ':' ∧ c ≠ '?' ∧ c ≠ '#'))).map
    Char.toLower)

/-- Simplified model of C `inet_aton`: 1-4 dot-separated non-empty
decimal parts (numeric range checks omitted; only applied here to hosts
that are clearly one or the other). -/
def inet_aton_ok (s : String) : Bool :=
  decide (1 ≤ (splitOnChar '.' s.toList).length) &&
  decide ((splitOnChar '.' s.toList).length ≤ 4) &&
  (splitOnChar '.' s.toList).all
    (fun p => decide (p ≠ []) && p.all (fun c => c.isDigit))

/-- The hostname derived from the tracker URL
(`urlparse(tracker.replace("udp://", "http://")).hostname`). -/
def hostFromTracker (tracker : String) : String :=
  url_hostname (pyReplace tracker "udp://" "http://")

/-- The label-collapsing step of `get_tracker_host` applied to `host`
(the `parts = host.split(".")` block). -/
def collapseHost (host : String) : String :=
  if 2 < (splitDot host).length then
    if decide ((splitDot host).getD ((splitDot host).length - 2) "" ∈
        (["co", "com", "net", "org"] : List String))
      || pyInStr ((splitDot host).getD ((splitDot host).length - 1) "") "uk"
    then joinDots ((splitDot host).drop ((splitDot host).length - 3))
    else joinDots ((splitDot host).drop ((splitDot host).length - 2))
  else host

/-- `Torrent.get_tracker_host` for the chosen tracker URL
(`status.current_tracker`, or the first tracker; `""` when there is
none), parameterized by the `inet_aton` success predicate `isIP`. -/
def get_tracker_host (isIP : String → Bool) (tracker : String) : String :=
  if tracker = "" then ""
  else if isIP (if hostFromTracker tracker = "" then "DHT"
      else hostFromTracker tracker) = true then
    hostFromTracker tracker
  else collapseHost (if hostFromTracker tracker = "" then "DHT"
    else hostFromTracker tracker)

/-! ### `Torrent.set_options` (torrent.py lines 252-270)

`self.options` and the update dict are association lists with unique
string keys; option values are an arbitrary type `V`.  The loop iterates
over the Python 2 `options.items()` snapshot (a list built at loop
entry, so `del options[key]` during iteration is safe), deletes
dispatched keys from the worked-on dict, and stores recognized keys
without a setter into `self.options`.  Setter bodies are not modelled
beyond recording the dispatched `(key, value)` calls in order. -/

/-- The names `k` for which the `Torrent` class has a method `set_` ++ k
(so `getattr(self, "set_" + key, None)` is non-None), collected from the
class body. -/
def setterNames : List String :=
  ["options", "max_connections", "max_upload_slots", "max_upload_speed",
   "max_download_speed", "prioritize_first_last",
   "prioritize_first_last_pieces", "sequential_download", "auto_managed",
   "super_seeding", "stop_ratio", "stop_at_ratio", "remove_at_ratio",
   "move_completed", "move_completed_path", "file_priorities", "save_path",
   "download_location", "priority", "owner", "trackers", "tracker_status",
   "state", "status_message"]

/-- `getattr(self, "set_" + key, None)` is non-None. -/
def hasSetter (k : String) : Bool :=
  decide (k ∈ setterNames)

/-- A key of the update that the loop dispatches to a named setter (and
deletes): recognized (in `K`, the key set of `self.options`), has a
setter, and is not in `skip_func`. -/
def dispatchKey (K skip : List String) (k : String) : Bool :=
  decide (k ∈ K) && (hasSetter k && decide (k ∉ skip))

/-- The `for key, value in options.items()` loop of `set_options`:
`items` is the snapshot taken at loop entry, `s` is `self.options`, `w`
is the dict the loop deletes from, `d` accumulates the dispatched setter
calls in order.  Returns the final `(self.options, worked dict,
dispatched calls)`. -/
def soLoop {V : Type} (skip : List String) :
    List (String × V) → List (String × V) → List (String × V) →
      List (String × V) →
    List (String × V) × List (String × V) × List (String × V)
  | [], s, w, d => (s, w, d)
  | (k, v) :: rest, s, w, d =>
    if dictMem s k then
      if hasSetter k && decide (k ∉ skip) then
        soLoop skip rest s (dictDel w k) (d ++ [(k, v)])
      else
        soLoop skip rest (dictSet s k v) w d
    else
      soLoop skip rest s w d

/-- Outcome of one `set_options` call: whether `KeyError` was raised,
the final `self.options`, the final contents of the dict object the
caller passed in, and the dispatched setter calls in order. -/
structure SetOptionsRun (V : Type) where
  keyError : Bool
  selfOpts : List (String × V)
  callerDict : List (String × V)
  dispatched : List (String × V)
deriving DecidableEq

/-- `Torrent.set_options(options)`.  `uIsSelf` records whether the
caller passed `self.options` itself (`options is self.options`), in
which case the code works on a shallow copy (same contents) and the
caller observes `self.options`; otherwise the caller observes the
worked-on dict.  `keyError = true` models the `KeyError` raised by
reading `options["prioritize_first_last_pieces"]` when
`"file_priorities"` is present without it — before anything is
dispatched or stored. -/
def set_options {V : Type} (selfOpts u : List (String × V))
    (uIsSelf : Bool) : SetOptionsRun V :=
  if dictMem u "file_priorities" then
    match dictLookup u "prioritize_first_last_pieces" with
    | none =>
      { keyError := true, selfOpts := selfOpts, callerDict := u,
        dispatched := [] }
    | some v =>
      { keyError := false
        selfOpts := (soLoop ["prioritize_first_last_pieces"] u
          (dictSet selfOpts "prioritize_first_last_pieces" v) u []).1
        callerDict :=
          if uIsSelf then
            (soLoop ["prioritize_first_last_pieces"] u
              (dictSet selfOpts "prioritize_first_last_pieces" v) u []).1
          else
            (soLoop ["prioritize_first_last_pieces"] u
              (dictSet selfOpts "prioritize_first_last_pieces" v) u []).2.1
        dispatched := (soLoop ["prioritize_first_last_pieces"] u
          (dictSet selfOpts "prioritize_first_last_pieces" v) u []).2.2 }
  else
    { keyError := false
      selfOpts := (soLoop [] u selfOpts u []).1
      callerDict :=
        if uIsSelf then (soLoop [] u selfOpts u []).1
        else (soLoop [] u selfOpts u []).2.1
      dispatched := (soLoop [] u selfOpts u []).2.2 }

/-! ### Theorems -/

theorem string_len_pos (s : String) : 0 < s.length ↔ s ≠ "" := by
  cases s with
  | mk d =>
    cases d with
    | nil =>
      constructor
      · intro h
        exact absurd h (by decide)
      · intro h
        exact absurd rfl h
    | cons c cs =>
      constructor
      · intro _ h
        exact List.noConfusion (congrArg String.data h)
      · intro _
        exact Nat.succ_pos cs.length

theorem status_diff_cons_prev {V : Type} [DecidableEq V]
    (l : List (String × V)) (k : String) (w : V) (p : List (String × V))
    (h : ∀ kv ∈ l, kv.1 ≠ k) :
    status_diff l ((k, w) :: p) = status_diff l p := by
  induction l with
  | nil => rfl
  | cons kv rest ih =>
    have hk : kv.1 ≠ k := h kv (by simp)
    have hrest : ∀ kv2 ∈ rest, kv2.1 ≠ k := fun kv2 hm => h kv2 (by simp [hm])
    have hlook : dictLookup ((k, w) :: p) kv.1 = dictLookup p kv.1 := by
      have hne2 : ¬ (k = kv.1) := fun hh => hk hh.symm
      simp only [dictLookup, if_neg hne2]
    simp only [status_diff, List.filter_cons] at ih ⊢
    rw [hlook, ih hrest]

theorem status_diff_map {V : Type} [DecidableEq V] (keys : List String)
    (f g : String → V) (hnd : keys.Nodup) :
    status_diff (keys.map fun k => (k, f k)) (keys.map fun k => (k, g k)) =
      (keys.filter (fun k => decide (f k ≠ g k))).map (fun k => (k, f k)) := by
  induction keys with
  | nil => rfl
  | cons k ks ih =>
    have hk : k ∉ ks := (List.nodup_cons.mp hnd).1
    have hnd2 : ks.Nodup := (List.nodup_cons.mp hnd).2
    have htail : status_diff (ks.map fun k2 => (k2, f k2))
        ((k, g k) :: ks.map fun k2 => (k2, g k2))
        = status_diff (ks.map fun k2 => (k2, f k2))
          (ks.map fun k2 => (k2, g k2)) := by
      apply status_diff_cons_prev
      intro kv hm
      rcases List.mem_map.mp hm with ⟨k2, hk2, rfl⟩
      intro hcontra
      exact hk (hcontra ▸ hk2)
    have hlook : dictLookup ((k, g k) :: ks.map fun k2 => (k2, g k2)) k
        = some (g k) := by
      simp [dictLookup]
    simp only [List.map_cons, status_diff, List.filter_cons] at htail ih ⊢
    rw [hlook, htail, ih hnd2]
    by_cases hfg : f k = g k
    · simp [hfg]
    · simp [hfg]

theorem filter_eq_single {α : Type} (l : List α) (p : α → Bool) (a : α)
    (hnd : l.Nodup) (ha : a ∈ l) (hpa : p a = true)
    (hother : ∀ b ∈ l, b ≠ a → p b = false) : l.filter p = [a] := by
  induction l with
  | nil => cases ha
  | cons b bs ih =>
    have hkb : b ∉ bs := (List.nodup_cons.mp hnd).1
    have hnd2 : bs.Nodup := (List.nodup_cons.mp hnd).2
    by_cases hb : b = a
    · subst hb
      have hnil : bs.filter p = [] := by
        apply List.filter_eq_nil_iff.mpr
        intro x hx
        have hxb : x ≠ b := fun hh => hkb (hh ▸ hx)
        simp [hother x (by simp [hx]) hxb]
      rw [List.filter_cons, if_pos hpa, hnil]
    · have hab : a ∈ bs := by
        rcases List.mem_cons.mp ha with h | h
        · exact absurd h.symm hb
        · exact h
      have hpb : p b = false := hother b (by simp) hb
      rw [List.filter_cons, if_neg (by simp [hpb])]
      exact ih hnd2 hab (fun x hx hxa => hother x (by simp [hx]) hxa)

theorem boost_boost (p : Nat) : boost (boost p) = boost p := by
  by_cases h : p = 0 <;> simp [boost, h]

theorem applyBoost_getD (s e : Nat) : ∀ (l : List Nat) (i j : Nat),
    (applyBoost s e j l).getD i 0 =
      if s ≤ j + i ∧ j + i < e then boost (l.getD i 0) else l.getD i 0 := by
  intro l
  induction l with
  | nil =>
    intro i j
    by_cases h : s ≤ j + i ∧ j + i < e <;> simp [applyBoost, h, boost]
  | cons p ps ih =>
    intro i j
    cases i with
    | zero => simp [applyBoost]
    | succ n =>
      have := ih n (j + 1)
      have harith : j + 1 + n = j + (n + 1) := by omega
      simp only [applyBoost, List.getD_cons_succ, this, harith]

theorem foldl_applyBoost_getD (rs : List (Nat × Nat)) :
    ∀ (l : List Nat) (i : Nat),
      (rs.foldl (fun pr se => applyBoost se.1 se.2 0 pr) l).getD i 0 =
        if rs.any (fun se => decide (se.1 ≤ i ∧ i < se.2)) then
          boost (l.getD i 0)
        else l.getD i 0 := by
  induction rs with
  | nil =>
    intro l i
    simp
  | cons se rest ih =>
    intro l i
    have h1 := applyBoost_getD se.1 se.2 l i 0
    simp only [Nat.zero_add] at h1
    rw [List.foldl_cons, ih, h1]
    simp only [List.any_cons]
    by_cases hin : se.1 ≤ i ∧ i < se.2
    · rw [if_pos hin]
      have hc : (decide (se.1 ≤ i ∧ i < se.2) ||
          (rest.any fun se2 => decide (se2.1 ≤ i ∧ i < se2.2))) = true := by
        simp [hin]
      rw [if_pos hc]
      by_cases hrest : (rest.any fun se2 => decide (se2.1 ≤ i ∧ i < se2.2))
          = true
      · rw [if_pos hrest, boost_boost]
      · rw [if_neg hrest]
    · rw [if_neg hin]
      have hc : (decide (se.1 ≤ i ∧ i < se.2) ||
          (rest.any fun se2 => decide (se2.1 ≤ i ∧ i < se2.2))) =
          (rest.any fun se2 => decide (se2.1 ≤ i ∧ i < se2.2)) := by
        simp [hin]
      simp only [hc]

/-- C6: `set_prioritize_first_last_pieces(True)` never changes the
priority of a piece whose current priority is 0 (do-not-download); with
metadata available and non-compact allocation, pieces inside the
computed first/last 2% ranges with non-zero priority are raised to 7,
and every piece outside those ranges keeps exactly its previous
priority. -/
theorem set_prioritize_first_last_pieces_spec
    (hm ca : Bool) (piece_length : Nat) (files : List FileInfo)
    (priorities : List Nat) (i : Nat) :
    ((priorities.getD i 0 = 0) →
      (set_prioritize_first_last_pieces hm ca piece_length files
        priorities).getD i 0 = 0)
    ∧ (hm = true → ca = false →
        (prioritizedRangesPieces piece_length files).any
          (fun se => decide (se.1 ≤ i ∧ i < se.2)) = true →
        priorities.getD i 0 ≠ 0 →
        (set_prioritize_first_last_pieces hm ca piece_length files
          priorities).getD i 0 = 7)
    ∧ (hm = true → ca = false →
        (prioritizedRangesPieces piece_length files).any
          (fun se => decide (se.1 ≤ i ∧ i < se.2)) = false →
        (set_prioritize_first_last_pieces hm ca piece_length files
          priorities).getD i 0 = priorities.getD i 0) := by
  refine ⟨?_, ?_, ?_⟩
  · intro h0
    unfold set_prioritize_first_last_pieces
    by_cases hhm : hm = false
    · rw [if_pos hhm]
      exact h0
    · rw [if_neg hhm]
      by_cases hca : ca = true
      · rw [if_pos hca]
        exact h0
      · rw [if_neg hca, foldl_applyBoost_getD, h0]
        by_cases hany : (prioritizedRangesPieces piece_length files).any
            (fun se => decide (se.1 ≤ i ∧ i < se.2)) = true
        · rw [if_pos hany]
          rfl
        · rw [if_neg hany]
  · intro h1 h2 hany hne
    subst h1
    subst h2
    unfold set_prioritize_first_last_pieces
    rw [if_neg (by simp), if_neg (by simp), foldl_applyBoost_getD,
      if_pos hany]
    unfold boost
    rw [if_neg hne]
  · intro h1 h2 hany
    subst h1
    subst h2
    unfold set_prioritize_first_last_pieces
    rw [if_neg (by simp), if_neg (by simp), foldl_applyBoost_getD,
      if_neg (by simp only [hany]; exact Bool.false_ne_true)]

theorem set_prioritize_first_last_pieces_spec_witness :
    ((prioritizedRangesPieces 50 [⟨0, 100⟩]).any
        (fun se => decide (se.1 ≤ 0 ∧ 0 < se.2)) = true)
    ∧ (([1, 0] : List Nat).getD 0 0 ≠ 0)
    ∧ (set_prioritize_first_last_pieces true false 50 [⟨0, 100⟩]
        [1, 0]).getD 0 0 = 7 :=
  ⟨by decide, by decide,
    (set_prioritize_first_last_pieces_spec true false 50 [⟨0, 100⟩]
      [1, 0] 0).2.1 rfl rfl (by decide) (by decide)⟩

theorem filter_range_eq (n B : Nat) (p : Nat → Bool) (hB : n ≤ B)
    (hp : ∀ i, p i = decide (i < n)) :
    (List.range B).filter p = List.range n := by
  obtain ⟨m, rfl⟩ := Nat.le.dest hB
  rw [List.range_add, List.filter_append]
  have h1 : (List.range n).filter p = List.range n := by
    apply List.filter_eq_self.mpr
    intro a ha
    rw [hp a, decide_eq_true_eq]
    exact List.mem_range.mp ha
  have h2 : ((List.range m).map (n + ·)).filter p = [] := by
    apply List.filter_eq_nil_iff.mpr
    intro a ha
    rcases List.mem_map.mp ha with ⟨x, _, rfl⟩
    rw [hp, decide_eq_true_eq]
    omega
  rw [h1, h2, List.append_nil]

theorem mem_peerKeys (peers : List PeerInfo) (i : Nat) :
    i ∈ peerKeys peers ↔
      ∃ p ∈ peers, ¬ p.downloading_piece_index < 0
        ∧ p.downloading_piece_index.toNat = i := by
  unfold peerKeys
  rw [List.mem_filterMap]
  constructor
  · rintro ⟨p, hp, hf⟩
    by_cases hneg : p.downloading_piece_index < 0
    · rw [if_pos hneg] at hf
      cases hf
    · rw [if_neg hneg] at hf
      exact ⟨p, hp, hneg, Option.some.inj hf⟩
  · rintro ⟨p, hp, hneg, hi⟩
    exact ⟨p, hp, by rw [if_neg hneg, hi]⟩

/-- C5 (amended): with every in-flight piece index in range, the
piece-availability view is an ordered sequence with one entry per piece
index, classifying a piece as 2 when some peer of the raw engine peer
list (including peers in connecting/handshake state) reports it as its
in-flight piece, else 3 when the piece is complete, else 1 when at least
one peer reports availability > 0, else 0; in-flight classification
takes precedence over completeness. -/
theorem get_pieces_info_spec (peers : List PeerInfo) (bitmap : List Bool)
    (avail : List Int)
    (hk : ∀ k ∈ peerKeys peers, k < bitmap.length) :
    get_pieces_info true peers bitmap avail =
      some ((List.range bitmap.length).map (pieceValue peers bitmap avail))
    ∧ ((List.range bitmap.length).map
        (pieceValue peers bitmap avail)).length = bitmap.length
    ∧ ∀ i, i < bitmap.length →
        ((List.range bitmap.length).map
            (pieceValue peers bitmap avail)).getD i 0 =
          if (∃ p ∈ peers, ¬ p.downloading_piece_index < 0
              ∧ p.downloading_piece_index.toNat = i) then 2
          else if bitmap.getD i false then 3
          else if 0 < avail.getD i 0 then 1
          else 0 := by
  refine ⟨?_, by simp, ?_⟩
  · unfold get_pieces_info
    rw [if_neg (by simp)]
    have hfil : (List.range (bitmap.length + (peerKeys peers).foldr
        Nat.max 0 + 1)).filter
        (fun idx => decide (idx ∈ peerKeys peers ∨ idx < bitmap.length)) =
        List.range bitmap.length := by
      apply filter_range_eq _ _ _ (by omega)
      intro i
      have : (i ∈ peerKeys peers ∨ i < bitmap.length) ↔ i < bitmap.length := by
        constructor
        · rintro (h | h)
          · exact hk i h
          · exact h
        · exact Or.inr
      rw [decide_eq_decide.mpr this]
    rw [hfil]
  · intro i hi
    have h1 : ((List.range bitmap.length).map
        (pieceValue peers bitmap avail)).getD i 0
        = pieceValue peers bitmap avail i := by
      rw [List.getD_eq_getElem?_getD, List.getElem?_map,
        List.getElem?_range hi]
      rfl
    rw [h1]
    unfold pieceValue
    exact if_congr (mem_peerKeys peers i) rfl rfl

theorem get_pieces_info_spec_witness :
    (∀ k ∈ peerKeys [PeerInfo.mk false false 1], k < 3)
    ∧ get_pieces_info true [PeerInfo.mk false false 1]
        [false, false, true] [1, 0, 0] =
      some ((List.range 3).map (pieceValue [PeerInfo.mk false false 1]
        [false, false, true] [1, 0, 0])) :=
  ⟨by decide,
    (get_pieces_info_spec [PeerInfo.mk false false 1]
      [false, false, true] [1, 0, 0] (by decide)).1⟩

/-- C5 as stated is false on the code: `_get_pieces_info` iterates the
raw `handle.get_peer_info()` list and does not skip peers in
connecting/handshake state (that filtering happens only in `get_peers`).
A single connecting peer in-flight on piece 0, with the piece incomplete
and availability 0, yields classification `[2]`, while the claim
(skipping the connecting peer) requires `[0]`. -/
theorem get_pieces_info_counterexample :
    get_pieces_info true [PeerInfo.mk true false 0] [false] [0] = some [2]
    ∧ ([2] : List Nat) ≠ [0] :=
  ⟨by decide, by decide⟩

/-- C4 (amended): `get_tracker_host` returns hostnames accepted by
`inet_aton` unmodified; otherwise, for hostnames of more than 2 labels it
keeps the last 3 labels when the second-to-last label is one of
co/com/net/org or the last label passes the `in "uk"` substring test,
else the last 2 labels.  In particular
`udp://tracker.example.co.uk/announce` resolves to `example.co.uk`
(not `tracker.example.co.uk`) and `udp://a.b.example.net/announce`
resolves to `example.net`. -/
theorem get_tracker_host_spec (isIP : String → Bool) (tracker : String)
    (htr : tracker ≠ "") :
    (isIP (if hostFromTracker tracker = "" then "DHT"
        else hostFromTracker tracker) = true →
      get_tracker_host isIP tracker = hostFromTracker tracker)
    ∧ (hostFromTracker tracker ≠ "" →
        isIP (hostFromTracker tracker) = false →
        2 < (splitDot (hostFromTracker tracker)).length →
        get_tracker_host isIP tracker =
          (if decide ((splitDot (hostFromTracker tracker)).getD
              ((splitDot (hostFromTracker tracker)).length - 2) "" ∈
                (["co", "com", "net", "org"] : List String))
            || pyInStr ((splitDot (hostFromTracker tracker)).getD
              ((splitDot (hostFromTracker tracker)).length - 1) "") "uk"
          then joinDots ((splitDot (hostFromTracker tracker)).drop
            ((splitDot (hostFromTracker tracker)).length - 3))
          else joinDots ((splitDot (hostFromTracker tracker)).drop
            ((splitDot (hostFromTracker tracker)).length - 2))))
    ∧ get_tracker_host inet_aton_ok "udp://tracker.example.co.uk/announce"
        = "example.co.uk"
    ∧ get_tracker_host inet_aton_ok "udp://a.b.example.net/announce"
        = "example.net" := by
  refine ⟨?_, ?_, by decide, by decide⟩
  · intro hIP
    unfold get_tracker_host
    rw [if_neg htr, if_pos hIP]
  · intro hne hIP hlen
    unfold get_tracker_host
    rw [if_neg htr, if_neg hne, hIP,
      if_neg (Bool.false_ne_true), collapseHost, if_pos hlen]

theorem get_tracker_host_spec_witness :
    (("udp://tracker.example.co.uk/announce" : String) ≠ "")
    ∧ get_tracker_host inet_aton_ok "udp://tracker.example.co.uk/announce"
        = "example.co.uk" :=
  ⟨by decide, (get_tracker_host_spec inet_aton_ok
    "udp://tracker.example.co.uk/announce" (by decide)).2.2.1⟩

/-- C4 as stated is false at its own example: the code keeps the LAST 3
labels (`".".join(parts[-3:])`), so `udp://tracker.example.co.uk/announce`
resolves to `example.co.uk`, not `tracker.example.co.uk`. -/
theorem get_tracker_host_counterexample :
    get_tracker_host inet_aton_ok "udp://tracker.example.co.uk/announce"
        = "example.co.uk"
    ∧ ("example.co.uk" : String) ≠ "tracker.example.co.uk" :=
  ⟨by decide, by decide⟩

/-- C1: for one session, the first `get_status(diff=True)` call (no prior
baseline) returns the full requested key-to-value mapping and stores it
as the baseline; a second call whose computed values all equal the
baseline returns an empty mapping; a second call after exactly one
tracked field changed (by equality) returns a mapping containing exactly
that field; and after every `diff=True` call the session's stored
baseline equals the full freshly computed status dict. -/
theorem get_status_diff_roundtrip {V : Type} [DecidableEq V]
    (keys : List String) (f g : String → V) (k0 : String)
    (hnd : keys.Nodup) (hk0 : k0 ∈ keys) (hne : f k0 ≠ g k0)
    (hothers : ∀ k ∈ keys, k ≠ k0 → f k = g k) :
    (get_status_diff (keys.map fun k => (k, g k)) none =
      (keys.map fun k => (k, g k), keys.map fun k => (k, g k)))
    ∧ (get_status_diff (keys.map fun k => (k, g k))
        (some (keys.map fun k => (k, g k))) = ([], keys.map fun k => (k, g k)))
    ∧ ((get_status_diff (keys.map fun k => (k, f k))
        (some (keys.map fun k => (k, g k)))).1 = [(k0, f k0)])
    ∧ ((get_status_diff (keys.map fun k => (k, f k))
        (some (keys.map fun k => (k, g k)))).2 = keys.map fun k => (k, f k)) := by
  refine ⟨rfl, ?_, ?_, rfl⟩
  · have h := status_diff_map keys g g hnd
    have hnil : keys.filter (fun k => decide (g k ≠ g k)) = [] := by
      apply List.filter_eq_nil_iff.mpr
      intro x hx
      simp
    simp only [get_status_diff, h, hnil, List.map_nil]
  · have h := status_diff_map keys f g hnd
    have hone : keys.filter (fun k => decide (f k ≠ g k)) = [k0] := by
      apply filter_eq_single keys _ k0 hnd hk0
      · simp [hne]
      · intro b hb hba
        simp [hothers b hb hba]
    simp only [get_status_diff, h, hone, List.map_cons, List.map_nil]

theorem get_status_diff_roundtrip_witness :
    (["a", "b"] : List String).Nodup
    ∧ ((1 : Nat) ≠ 2 → True)
    ∧ (get_status_diff [("a", (5 : Nat)), ("b", 1)]
        (some [("a", 5), ("b", 2)])).1 = [("b", 1)] := by
  have h := get_status_diff_roundtrip ["a", "b"]
    (fun k => if k = "a" then (5 : Nat) else 1)
    (fun k => if k = "a" then (5 : Nat) else 2) "b"
    (by decide) (by decide) (by decide) (by decide)
  refine ⟨by decide, fun _ => trivial, ?_⟩
  simpa using h.2.2.1

theorem processCompletions_perm (order : List Nat) :
    ∀ (pending : List Nat) (f : Bool), order.Perm pending → pending.Nodup →
      pending ≠ [] →
      processCompletions pending pending order f = ([], true) := by
  induction order with
  | nil =>
    intro pending f hperm hnd hne
    exact absurd hperm.symm.eq_nil hne
  | cons i rest ih =>
    intro pending f hperm hnd hne
    have hi : i ∈ pending := hperm.subset (List.mem_cons_self i rest)
    have hperm2 : rest.Perm (pending.erase i) :=
      (hperm.trans (List.perm_cons_erase hi)).cons_inv
    have hnd2 : (pending.erase i).Nodup := hnd.erase i
    show processCompletions (pending.erase i) (pending.erase i) rest
      (f || (pending.erase i).isEmpty) = ([], true)
    by_cases hp2 : pending.erase i = []
    · have horder : rest = [] := by
        rw [hp2] at hperm2
        exact hperm2.eq_nil
      subst horder
      rw [hp2]
      simp [processCompletions]
    · exact ih (pending.erase i) (f || (pending.erase i).isEmpty)
        hperm2 hnd2 hp2

/-- C3 (amended): for a folder-rename request with a non-empty target
name over a folder containing N ≥ 1 matching files, after all N per-file
rename completions arrive in any order, exactly one folder-renamed
notification fires and the wait dict for that folder is empty.  For a
request matching 0 files the code still appends an (empty) wait dict and
the empty DeferredList fires immediately, emitting exactly one
folder-renamed notification. -/
theorem rename_folder_spec (files : List (Nat × String))
    (folder new_folder : String) (order : List Nat)
    (hnf : 1 ≤ new_folder.length)
    (hnd : (matchingIndices files folder).Nodup)
    (hperm : order.Perm (matchingIndices files folder)) :
    rename_folder files folder new_folder order =
      { waitGroupAppended := true, waitGroupFinal := [], notifications := 1 } := by
  have hlt : ¬ new_folder.length < 1 := by omega
  unfold rename_folder
  rw [if_neg hlt]
  by_cases hmi : matchingIndices files folder = []
  · have horder : order = [] := by
      rw [hmi] at hperm
      exact hperm.eq_nil
    subst horder
    simp [hmi, processCompletions]
  · have h := processCompletions_perm order (matchingIndices files folder)
      (matchingIndices files folder).isEmpty hperm hnd hmi
    simp [h]

theorem rename_folder_spec_witness :
    (1 ≤ ("dst" : String).length)
    ∧ (matchingIndices [(0, "src/a"), (1, "src/b"), (2, "zzz")] "src/").Nodup
    ∧ ([1, 0] : List Nat).Perm
        (matchingIndices [(0, "src/a"), (1, "src/b"), (2, "zzz")] "src/")
    ∧ rename_folder [(0, "src/a"), (1, "src/b"), (2, "zzz")] "src/" "dst"
        [1, 0] =
      { waitGroupAppended := true, waitGroupFinal := [], notifications := 1 } :=
  ⟨by decide, by decide, by decide,
    rename_folder_spec [(0, "src/a"), (1, "src/b"), (2, "zzz")] "src/" "dst"
      [1, 0] (by decide) (by decide) (by decide)⟩

/-- C3 as stated is false for the zero-matching-files case: the code
appends an (empty) wait dict and the immediately-firing empty
DeferredList emits one folder-renamed notification, not zero. -/
theorem rename_folder_zero_files_counterexample :
    (rename_folder [(0, "other/file")] "src/" "dst" []).waitGroupAppended
        = true
    ∧ (rename_folder [(0, "other/file")] "src/" "dst" []).notifications = 1
    ∧ (1 : Nat) ≠ 0 := by
  refine ⟨by decide, by decide, by decide⟩

/-- C7: `set_priority(p)` raises `ValueError` iff `p` is outside `[0, 255]`;
on failure no option is mutated; on success it stores exactly `p` in
`options["priority"]` and pushes exactly `p` to the engine handle. -/
theorem set_priority_range_spec (s : PriorityState) (p : Int) :
    ((set_priority s p).2.isSome = true ↔ ¬(0 ≤ p ∧ p ≤ 255))
    ∧ ((set_priority s p).2.isSome = true → (set_priority s p).1 = s)
    ∧ ((0 ≤ p ∧ p ≤ 255) →
        (set_priority s p).1 = { optPriority := p, handlePriority := p }) := by
  by_cases h : 0 ≤ p ∧ p ≤ 255 <;> simp [set_priority, h]

theorem set_priority_range_spec_witness :
    ((0:Int) ≤ 7 ∧ (7:Int) ≤ 255)
    ∧ (set_priority ⟨0, 0⟩ 7).1 = { optPriority := 7, handlePriority := 7 } :=
  ⟨by decide, (set_priority_range_spec ⟨0, 0⟩ 7).2.2 (by decide)⟩

/-- C8: `get_eta` returns, when finished with `stop_at_ratio` set, `0` if
the upload rate is `0` and otherwise
`(all_time_download * stop_ratio - all_time_upload) / upload_rate`; in all
other cases `0` if remaining bytes `total_wanted - total_wanted_done ≤ 0`
or the download rate is `0`, and otherwise the remaining bytes divided
(Python 2 integer floor division) by the download rate. -/
theorem get_eta_spec (fin sar : Bool) (ratio : ℚ)
    (atd atu upr tw twd dpr : Int) :
    (fin = true → sar = true → upr = 0 →
      get_eta fin sar ratio atd atu upr tw twd dpr = 0)
    ∧ (fin = true → sar = true → upr ≠ 0 →
      get_eta fin sar ratio atd atu upr tw twd dpr =
        ((atd : ℚ) * ratio - (atu : ℚ)) / (upr : ℚ))
    ∧ (¬(fin = true ∧ sar = true) → (tw - twd ≤ 0 ∨ dpr = 0) →
      get_eta fin sar ratio atd atu upr tw twd dpr = 0)
    ∧ (¬(fin = true ∧ sar = true) → 0 < tw - twd → dpr ≠ 0 →
      get_eta fin sar ratio atd atu upr tw twd dpr =
        ((Int.fdiv (tw - twd) dpr : Int) : ℚ)) := by
  refine ⟨?_, ?_, ?_, ?_⟩
  · intro h1 h2 h3
    simp [get_eta, h1, h2, h3]
  · intro h1 h2 h3
    simp [get_eta, h1, h2, h3]
  · intro h1 h2
    have hb : (fin && sar) = false := by
      cases fin <;> cases sar <;> simp_all
    rcases h2 with h2 | h2 <;> simp [get_eta, hb, h2]
  · intro h1 h2 h3
    have hb : (fin && sar) = false := by
      cases fin <;> cases sar <;> simp_all
    have hle : ¬(tw - twd ≤ 0) := by omega
    simp [get_eta, hb, hle, h3]

theorem get_eta_spec_witness :
    (true = true ∧ true = true ∧ (10 : Int) ≠ 0)
    ∧ get_eta true true 2 100 30 10 0 0 0 =
        ((100 : ℚ) * 2 - (30 : ℚ)) / (10 : ℚ) :=
  ⟨⟨rfl, rfl, by decide⟩,
    (get_eta_spec true true 2 100 30 10 0 0 0).2.1 rfl rfl (by decide)⟩

/-- C2: `update_state` is deterministic; if the engine error string is
non-empty or the current status message starts with `"Error:"`, the
resulting state is `Error` regardless of all other inputs and
`handle.auto_managed(False)` is invoked exactly when the handle reports
paused; otherwise, for `Queued`/`Checking` raw states the result is
`Paused` when the handle reports paused, else `Checking`. -/
theorem update_state_spec (lt : LtState) (p am sp : Bool) (err msg : String) :
    (update_state lt p am sp err msg = update_state lt p am sp err msg)
    ∧ ((err ≠ "" ∨ pyStartsWith msg "Error:" = true) →
        (update_state lt p am sp err msg).state = "Error"
        ∧ (update_state lt p am sp err msg).autoManagedOff = p)
    ∧ (err = "" → pyStartsWith msg "Error:" = false →
        (lt = .Queued ∨ lt = .Checking) →
        (update_state lt p am sp err msg).state =
          (if p then "Paused" else "Checking")
        ∧ (update_state lt p am sp err msg).autoManagedOff = false) := by
  refine ⟨rfl, ?_, ?_⟩
  · intro h
    rcases h with h | h
    · have hl : 0 < err.length := (string_len_pos err).mpr h
      simp [update_state, hl]
    · by_cases hl : 0 < err.length
      · simp [update_state, hl]
      · simp [update_state, hl, h]
  · intro h1 h2 h3
    have hl : ¬ 0 < err.length := by
      subst h1
      decide
    simp only [update_state, if_neg hl, h2]
    rw [if_neg (by simp : ¬(false = true)), if_pos h3]
    exact ⟨rfl, rfl⟩

theorem update_state_spec_witness :
    ("boom" ≠ "" ∨ pyStartsWith "OK" "Error:" = true)
    ∧ (update_state .Downloading true false false "boom" "OK").state = "Error"
    ∧ (update_state .Downloading true false false "boom" "OK").autoManagedOff
        = true := by
  have h := (update_state_spec .Downloading true false false "boom" "OK").2.1
    (Or.inl (by decide))
  exact ⟨Or.inl (by decide), h.1, h.2⟩

theorem dictMem_eq_mem_keys {V : Type} (d : List (String × V)) (k : String) :
    dictMem d k = decide (k ∈ d.map Prod.fst) := by
  induction d with
  | nil => rfl
  | cons kv rest ih =>
    obtain ⟨k2, v⟩ := kv
    by_cases h : k2 = k
    · subst h
      simp [dictMem, dictLookup]
    · have h2 : ¬ (k = k2) := fun hh => h hh.symm
      have hstep : dictMem ((k2, v) :: rest) k = dictMem rest k := by
        simp only [dictMem, dictLookup, if_neg h]
      rw [hstep, ih]
      simp [h2]

theorem dictSet_keys {V : Type} (d : List (String × V)) (k : String) (v : V)
    (hk : dictMem d k = true) :
    (dictSet d k v).map Prod.fst = d.map Prod.fst := by
  unfold dictSet
  rw [if_pos hk, List.map_map]
  apply List.map_congr_left
  intro kv hkv
  show (if kv.1 = k then (k, v) else kv).1 = kv.1
  by_cases h : kv.1 = k
  · rw [if_pos h, h]
  · rw [if_neg h]

theorem soLoop_spec {V : Type} (skip K : List String) :
    ∀ (items : List (String × V)), ∀ (s w d : List (String × V)),
      s.map Prod.fst = K →
      (soLoop skip items s w d).1.map Prod.fst = K
      ∧ (soLoop skip items s w d).2.1 = w.filter (fun kv =>
          !(decide (kv.1 ∈ items.map Prod.fst) && dispatchKey K skip kv.1))
      ∧ (soLoop skip items s w d).2.2 =
          d ++ items.filter (fun kv => dispatchKey K skip kv.1) := by
  intro items
  induction items with
  | nil =>
    intro s w d hs
    refine ⟨hs, ?_, by simp [soLoop]⟩
    show w = w.filter _
    symm
    apply List.filter_eq_self.mpr
    intro kv hkv
    simp
  | cons kv0 rest ih =>
    intro s w d hs
    obtain ⟨k, v⟩ := kv0
    by_cases hmem : dictMem s k = true
    · have hkK : k ∈ K := by
        rw [dictMem_eq_mem_keys, hs] at hmem
        exact of_decide_eq_true hmem
      by_cases hdisp : (hasSetter k && decide (k ∉ skip)) = true
      · have hdk : dispatchKey K skip k = true := by
          unfold dispatchKey
          rw [decide_eq_true hkK, Bool.true_and, hdisp]
        have hstep : soLoop skip ((k, v) :: rest) s w d =
            soLoop skip rest s (dictDel w k) (d ++ [(k, v)]) := by
          simp only [soLoop, if_pos hmem, if_pos hdisp]
        rw [hstep]
        obtain ⟨ih1, ih2, ih3⟩ := ih s (dictDel w k) (d ++ [(k, v)]) hs
        refine ⟨ih1, ?_, ?_⟩
        · rw [ih2]
          unfold dictDel
          rw [List.filter_filter]
          apply List.filter_congr
          intro kv hkv
          by_cases hk : kv.1 = k
          · simp [hk, hdk]
          · have hbeq : (kv.1 == k) = false := beq_false_of_ne hk
            simp [hk, hbeq]
        · rw [ih3, List.filter_cons]
          simp [hdk]
      · have hdisp2 : (hasSetter k && decide (k ∉ skip)) = false := by
          revert hdisp
          cases hasSetter k && decide (k ∉ skip) <;> simp
        have hdk : dispatchKey K skip k = false := by
          unfold dispatchKey
          rw [hdisp2, Bool.and_false]
        have hstep : soLoop skip ((k, v) :: rest) s w d =
            soLoop skip rest (dictSet s k v) w d := by
          simp only [soLoop, if_pos hmem, if_neg hdisp]
        rw [hstep]
        obtain ⟨ih1, ih2, ih3⟩ := ih (dictSet s k v) w d
          (by rw [dictSet_keys s k v hmem, hs])
        refine ⟨ih1, ?_, ?_⟩
        · rw [ih2]
          apply List.filter_congr
          intro kv hkv
          by_cases hk : kv.1 = k
          · simp [hk, hdk]
          · have hbeq : (kv.1 == k) = false := beq_false_of_ne hk
            simp [hk, hbeq]
        · rw [ih3, List.filter_cons]
          simp [hdk]
    · have hkK : k ∉ K := by
        rw [dictMem_eq_mem_keys, hs] at hmem
        simpa using hmem
      have hdk : dispatchKey K skip k = false := by
        unfold dispatchKey
        rw [decide_eq_false hkK, Bool.false_and]
      have hstep : soLoop skip ((k, v) :: rest) s w d =
          soLoop skip rest s w d := by
        simp only [soLoop, if_neg hmem]
      rw [hstep]
      obtain ⟨ih1, ih2, ih3⟩ := ih s w d hs
      refine ⟨ih1, ?_, ?_⟩
      · rw [ih2]
        apply List.filter_congr
        intro kv hkv
        by_cases hk : kv.1 = k
        · simp [hk, hdk]
        · have hbeq : (kv.1 == k) = false := beq_false_of_ne hk
          simp [hk, hbeq]
      · rw [ih3, List.filter_cons]
        simp [hdk]

/-- C9: any update dict that contains `"file_priorities"` but not
`"prioritize_first_last_pieces"` makes `set_options` raise `KeyError`
while reading the missing key, before any key of the update is
dispatched or stored: `self.options`, the caller's dict and the
dispatch list are all untouched. -/
theorem set_options_keyerror {V : Type} (selfOpts u : List (String × V))
    (b : Bool)
    (hfp : dictMem u "file_priorities" = true)
    (hnp : dictMem u "prioritize_first_last_pieces" = false) :
    (set_options selfOpts u b).keyError = true
    ∧ (set_options selfOpts u b).selfOpts = selfOpts
    ∧ (set_options selfOpts u b).callerDict = u
    ∧ (set_options selfOpts u b).dispatched = [] := by
  have hlook : dictLookup u "prioritize_first_last_pieces" = none := by
    have := hnp
    unfold dictMem at this
    exact Option.not_isSome_iff_eq_none.mp (by simp [this])
  simp [set_options, hfp, hlook]

theorem set_options_keyerror_witness :
    dictMem [("file_priorities", (5 : Nat))] "file_priorities" = true
    ∧ dictMem [("file_priorities", (5 : Nat))] "prioritize_first_last_pieces"
        = false
    ∧ (set_options [("priority", (0 : Nat))]
        [("file_priorities", (5 : Nat))] false).keyError = true :=
  ⟨by decide, by decide,
    (set_options_keyerror [("priority", (0 : Nat))]
      [("file_priorities", (5 : Nat))] false (by decide) (by decide)).1⟩

/-- C10 (amended): for every update dict `u` that is not the internal
options dict and whose call completes (it contains
`"prioritize_first_last_pieces"` whenever it contains
`"file_priorities"` — otherwise the call raises `KeyError` and `u` is
left unchanged), `set_options(u)` mutates `u` in place: every key of `u`
that is a recognized option and is dispatched to a named setter is
deleted from `u`, so after the call `u` retains exactly the keys that
were stored without a setter or were unrecognized. -/
theorem set_options_mutates_update {V : Type} (selfOpts u : List (String × V))
    (hsafe : dictMem u "file_priorities" = true →
      ∃ v, dictLookup u "prioritize_first_last_pieces" = some v)
    (hpk : dictMem selfOpts "prioritize_first_last_pieces" = true) :
    (set_options selfOpts u false).keyError = false
    ∧ (set_options selfOpts u false).callerDict =
        u.filter (fun kv => !(dispatchKey (selfOpts.map Prod.fst)
          (if dictMem u "file_priorities" = true then
            ["prioritize_first_last_pieces"] else []) kv.1))
    ∧ (set_options selfOpts u false).dispatched =
        u.filter (fun kv => dispatchKey (selfOpts.map Prod.fst)
          (if dictMem u "file_priorities" = true then
            ["prioritize_first_last_pieces"] else []) kv.1) := by
  have hmemu : ∀ kv ∈ u, decide (kv.1 ∈ u.map Prod.fst) = true := by
    intro kv hkv
    exact decide_eq_true (List.mem_map.mpr ⟨kv, hkv, rfl⟩)
  by_cases hfp : dictMem u "file_priorities" = true
  · obtain ⟨v, hv⟩ := hsafe hfp
    obtain ⟨l1, l2, l3⟩ := soLoop_spec ["prioritize_first_last_pieces"]
      (selfOpts.map Prod.fst) u
      (dictSet selfOpts "prioritize_first_last_pieces" v) u []
      (dictSet_keys selfOpts "prioritize_first_last_pieces" v hpk)
    refine ⟨?_, ?_, ?_⟩
    · simp [set_options, hfp, hv]
    · rw [show (set_options selfOpts u false).callerDict =
          (soLoop ["prioritize_first_last_pieces"] u
            (dictSet selfOpts "prioritize_first_last_pieces" v) u []).2.1 by
          simp [set_options, hfp, hv]]
      rw [l2, if_pos hfp]
      apply List.filter_congr
      intro kv hkv
      rw [hmemu kv hkv, Bool.true_and]
    · rw [show (set_options selfOpts u false).dispatched =
          (soLoop ["prioritize_first_last_pieces"] u
            (dictSet selfOpts "prioritize_first_last_pieces" v) u []).2.2 by
          simp [set_options, hfp, hv]]
      rw [l3, if_pos hfp, List.nil_append]
  · obtain ⟨l1, l2, l3⟩ := soLoop_spec [] (selfOpts.map Prod.fst) u
      selfOpts u [] rfl
    refine ⟨?_, ?_, ?_⟩
    · simp [set_options, hfp]
    · rw [show (set_options selfOpts u false).callerDict =
          (soLoop [] u selfOpts u []).2.1 by simp [set_options, hfp]]
      rw [l2, if_neg hfp]
      apply List.filter_congr
      intro kv hkv
      rw [hmemu kv hkv, Bool.true_and]
    · rw [show (set_options selfOpts u false).dispatched =
          (soLoop [] u selfOpts u []).2.2 by simp [set_options, hfp]]
      rw [l3, if_neg hfp, List.nil_append]

/-- The default `TorrentOptions` key set (values immaterial). -/
def defaultOptsN : List (String × Nat) :=
  [("max_connections", 0), ("max_upload_slots", 0), ("max_upload_speed", 0),
   ("max_download_speed", 0), ("prioritize_first_last_pieces", 0),
   ("sequential_download", 0), ("compact_allocation", 0),
   ("download_location", 0), ("auto_managed", 0), ("stop_at_ratio", 0),
   ("stop_ratio", 0), ("remove_at_ratio", 0), ("move_completed", 0),
   ("move_completed_path", 0), ("add_paused", 0), ("shared", 0),
   ("super_seeding", 0), ("priority", 0), ("file_priorities", 0),
   ("mapped_files", 0), ("owner", 0), ("name", 0)]

theorem set_options_mutates_update_witness :
    (dictMem [("priority", (9 : Nat)), ("name", 3)] "file_priorities" = false)
    ∧ dictMem defaultOptsN "prioritize_first_last_pieces" = true
    ∧ (set_options defaultOptsN [("priority", (9 : Nat)), ("name", 3)]
        false).callerDict = [("name", 3)]
    ∧ (set_options defaultOptsN [("priority", (9 : Nat)), ("name", 3)]
        false).dispatched = [("priority", 9)] := by
  have h := set_options_mutates_update defaultOptsN
    [("priority", (9 : Nat)), ("name", 3)]
    (fun hc => absurd hc (by decide)) (by decide)
  refine ⟨by decide, by decide, ?_, ?_⟩
  · rw [h.2.1]
    decide
  · rw [h.2.2]
    decide

/-- C10 as stated is false on update dicts that hit the `KeyError` path:
for `u = {"file_priorities": 5}` (not the internal options dict) the
call raises before the dispatch loop, so `u` still holds
`"file_priorities"` — a recognized option with a named setter that was
neither stored without a setter nor unrecognized — and nothing was
dispatched or stored. -/
theorem set_options_mutates_update_counterexample :
    (set_options defaultOptsN [("file_priorities", (5 : Nat))]
        false).callerDict = [("file_priorities", 5)]
    ∧ hasSetter "file_priorities" = true
    ∧ dictMem defaultOptsN "file_priorities" = true
    ∧ (set_options defaultOptsN [("file_priorities", (5 : Nat))]
        false).dispatched = []
    ∧ (set_options defaultOptsN [("file_priorities", (5 : Nat))]
        false).selfOpts = defaultOptsN :=
  ⟨by decide, by decide, by decide, by decide, by decide⟩

end DelugeTorrent
